import Mathlib

/-!
Verification development for the block import task
(`src/service/block_import_task.rs`).

The embedding models:
* byte sequences (`Bytes`) with the lexicographic order used by `Vec<u8>`;
* the `BTreeMap<Vec<u8>, Vec<u8>>` storage mirror (`local_storage_cache`)
  as a key-sorted association list together with its `get`, `insert`,
  `remove`, `range` and iteration primitives;
* the actor state of `run_block_import_task` and one iteration of its
  command loop (`stepActor`), with the external collaborators
  (header codec, hashing, runtime builder, verifier) as parameters;
* the spawned database-persistence step as the sequence of actions it
  performs (`persistActions`), and schedules of chained steps.
-/

/-- Byte strings (`Vec<u8>` keys and values). -/
abbrev Bytes := List Nat

/-- Lexicographic strict order on byte strings, as in Rust's `Ord for Vec<u8>`:
compare pointwise, a strict prefix is smaller. -/
def bytesLt : Bytes → Bytes → Bool
  | _, [] => false
  | [], _ :: _ => true
  | a :: as, b :: bs => if a < b then true else if b < a then false else bytesLt as bs

/-- `k.starts_with(p)` on byte strings. -/
def bytesStartsWith : Bytes → Bytes → Bool
  | _, [] => true
  | [], _ :: _ => false
  | a :: ks, b :: ps => a = b && bytesStartsWith ks ps

theorem bytesLt_irrefl (a : Bytes) : bytesLt a a = false := by
  induction a with
  | nil => rfl
  | cons x xs ih => simp [bytesLt, ih]

theorem bytesLt_trans {a b c : Bytes} (hab : bytesLt a b = true)
    (hbc : bytesLt b c = true) : bytesLt a c = true := by
  induction a generalizing b c with
  | nil =>
    cases c with
    | nil => cases b <;> simp [bytesLt] at hab hbc
    | cons z zs => simp [bytesLt]
  | cons x xs ih =>
    cases b with
    | nil => simp [bytesLt] at hab
    | cons y ys =>
      cases c with
      | nil => simp [bytesLt] at hbc
      | cons z zs =>
        simp only [bytesLt] at hab hbc ⊢
        split at hab
        · split at hbc
          · simp; omega
          · split at hbc
            · exact absurd hbc (by simp)
            · have : x < z := by omega
              simp [this]
        · split at hab
          · exact absurd hab (by simp)
          · have hxy : x = y := by omega
            split at hbc
            · have : x < z := by omega
              simp [this]
            · split at hbc
              · exact absurd hbc (by simp)
              · have hyz : y = z := by omega
                subst hxy; subst hyz
                simp only [lt_irrefl, if_false]
                exact ih hab hbc

theorem bytesLt_asymm {a b : Bytes} (hab : bytesLt a b = true) :
    bytesLt b a = false := by
  by_contra h
  have hba : bytesLt b a = true := by
    cases hb : bytesLt b a
    · exact absurd hb h
    · rfl
  have := bytesLt_trans hab hba
  rw [bytesLt_irrefl] at this
  exact absurd this (by simp)

theorem bytesLt_total {a b : Bytes} (hab : bytesLt a b = false) (hne : a ≠ b) :
    bytesLt b a = true := by
  induction a generalizing b with
  | nil =>
    cases b with
    | nil => exact absurd rfl hne
    | cons y ys => simp [bytesLt] at hab
  | cons x xs ih =>
    cases b with
    | nil => simp [bytesLt]
    | cons y ys =>
      simp only [bytesLt] at hab ⊢
      split at hab
      · exact absurd hab (by simp)
      · split at hab
        · simp; omega
        · have hxy : x = y := by omega
          subst hxy
          simp only [lt_irrefl, if_false]
          exact ih hab (by intro h; exact hne (by rw [h]))

/-- A byte string never compares strictly below one of its own prefixes. -/
theorem bytesStartsWith_not_lt {p k : Bytes} (h : bytesStartsWith k p = true) :
    bytesLt k p = false := by
  induction p generalizing k with
  | nil => cases k <;> rfl
  | cons b ps ih =>
    cases k with
    | nil => simp [bytesStartsWith] at h
    | cons a ks =>
      simp only [bytesStartsWith, Bool.and_eq_true, decide_eq_true_eq] at h
      obtain ⟨rfl, hrest⟩ := h
      simp only [bytesLt, lt_irrefl, if_false]
      exact ih hrest

/-- Betweenness for the prefix relation: if `y` extends `p`, and `x` lies
between `p` and `y` in the lexicographic order, then `x` extends `p` too. -/
theorem bytesStartsWith_between {p x y : Bytes}
    (hy : bytesStartsWith y p = true) (hxp : bytesLt x p = false)
    (hxy : bytesLt x y = true) : bytesStartsWith x p = true := by
  induction p generalizing x y with
  | nil => cases x <;> rfl
  | cons a ps ih =>
    cases y with
    | nil => simp [bytesStartsWith] at hy
    | cons c ys =>
      simp only [bytesStartsWith, Bool.and_eq_true, decide_eq_true_eq] at hy
      obtain ⟨hca, hys⟩ := hy
      subst hca
      cases x with
      | nil => simp [bytesLt] at hxp
      | cons b xs =>
        rcases Nat.lt_trichotomy b c with hbc | hbc | hbc
        · simp [bytesLt, hbc] at hxp
        · subst hbc
          simp only [bytesLt, lt_irrefl, if_false] at hxp hxy
          simp only [bytesStartsWith, decide_eq_true_eq, Bool.and_eq_true]
          exact ⟨trivial, ih hys hxp hxy⟩
        · simp [bytesLt, hbc, Nat.lt_asymm hbc] at hxy

/-- The storage mirror `local_storage_cache : BTreeMap<Vec<u8>, Vec<u8>>`,
modelled as an association list whose representation invariant
(`SortedStorage`) is strict ordering of the keys. -/
abbrev Storage := List (Bytes × Bytes)

/-- Representation invariant of the `BTreeMap` model: keys strictly increase. -/
def SortedStorage (s : Storage) : Prop :=
  List.Pairwise (fun a b => bytesLt a.1 b.1 = true) s

instance (s : Storage) : Decidable (SortedStorage s) := by
  unfold SortedStorage; infer_instance

/-- `BTreeMap::get`. -/
def storageGet : Storage → Bytes → Option Bytes
  | [], _ => none
  | p :: rest, k => if p.1 = k then some p.2 else storageGet rest k

/-- `BTreeMap::insert` (insert or overwrite, keeping keys ordered). -/
def storageInsert : Storage → Bytes → Bytes → Storage
  | [], k, v => [(k, v)]
  | p :: rest, k, v =>
    if bytesLt k p.1 then (k, v) :: p :: rest
    else if p.1 = k then (k, v) :: rest
    else p :: storageInsert rest k v

/-- `BTreeMap::remove`. -/
def storageRemove : Storage → Bytes → Storage
  | [], _ => []
  | p :: rest, k => if p.1 = k then rest else p :: storageRemove rest k

/-- The keys of the mirror, in map order. -/
def storageKeys (s : Storage) : List Bytes := s.map (fun p => p.1)

theorem storageGet_insert_self (s : Storage) (k v : Bytes) :
    storageGet (storageInsert s k v) k = some v := by
  induction s with
  | nil => simp [storageInsert, storageGet]
  | cons p rest ih =>
    simp only [storageInsert]
    split
    · simp [storageGet]
    · split
      · simp [storageGet]
      · rename_i hne
        simp only [storageGet]
        split
        · exact absurd (by assumption) hne
        · exact ih

theorem storageGet_insert_ne (s : Storage) (k v j : Bytes) (hne : j ≠ k) :
    storageGet (storageInsert s k v) j = storageGet s j := by
  induction s with
  | nil =>
    simp only [storageInsert, storageGet]
    rw [if_neg (fun h => hne h.symm)]
  | cons p rest ih =>
    simp only [storageInsert]
    split
    · simp only [storageGet]
      split
      · exact absurd (by assumption : k = j) (fun h => hne h.symm)
      · rfl
    · split
      · rename_i hpk
        simp only [storageGet]
        split
        · exact absurd (by assumption : k = j) (fun h => hne h.symm)
        · split
          · rename_i hkj hpj
            exact absurd (hpk.symm.trans hpj) hkj
          · rfl
      · simp only [storageGet]
        split
        · rfl
        · exact ih

theorem storageGet_eq_none_of_not_mem (s : Storage) (k : Bytes)
    (h : ∀ p ∈ s, p.1 ≠ k) : storageGet s k = none := by
  induction s with
  | nil => rfl
  | cons p rest ih =>
    simp only [storageGet]
    split
    · exact absurd (by assumption) (h p (by simp))
    · exact ih (fun q hq => h q (by simp [hq]))

theorem storageGet_remove_self (s : Storage) (k : Bytes) (hs : SortedStorage s) :
    storageGet (storageRemove s k) k = none := by
  induction s with
  | nil => rfl
  | cons p rest ih =>
    simp only [storageRemove]
    rcases List.pairwise_cons.mp hs with ⟨hp, hrest⟩
    split
    · rename_i hpk
      exact storageGet_eq_none_of_not_mem rest k (fun q hq h => by
        have := hp q hq
        rw [hpk, h] at this
        rw [bytesLt_irrefl] at this
        exact absurd this (by simp))
    · rename_i hpk
      simp only [storageGet]
      split
      · exact absurd (by assumption) hpk
      · exact ih hrest

theorem storageGet_remove_ne (s : Storage) (k j : Bytes) (hne : j ≠ k) :
    storageGet (storageRemove s k) j = storageGet s j := by
  induction s with
  | nil => rfl
  | cons p rest ih =>
    simp only [storageRemove]
    split
    · rename_i hpk
      simp only [storageGet]
      split
      · rename_i hpj
        exact absurd (hpk.symm.trans hpj) (fun h => hne h.symm)
      · rfl
    · simp only [storageGet]
      split
      · rfl
      · exact ih

theorem mem_storageInsert (s : Storage) (k v : Bytes) (q : Bytes × Bytes)
    (h : q ∈ storageInsert s k v) : q = (k, v) ∨ q ∈ s := by
  induction s with
  | nil => simp [storageInsert] at h; simp [h]
  | cons p rest ih =>
    simp only [storageInsert] at h
    split at h
    · rcases List.mem_cons.mp h with h1 | h1
      · exact Or.inl h1
      · exact Or.inr h1
    · split at h
      · rcases List.mem_cons.mp h with h1 | h1
        · exact Or.inl h1
        · exact Or.inr (by simp [h1])
      · rcases List.mem_cons.mp h with h1 | h1
        · exact Or.inr (by simp [h1])
        · rcases ih h1 with h2 | h2
          · exact Or.inl h2
          · exact Or.inr (by simp [h2])

theorem sortedStorage_insert (s : Storage) (k v : Bytes) (hs : SortedStorage s) :
    SortedStorage (storageInsert s k v) := by
  induction s with
  | nil => simp [storageInsert, SortedStorage]
  | cons p rest ih =>
    rcases List.pairwise_cons.mp hs with ⟨hp, hrest⟩
    simp only [storageInsert]
    split
    · rename_i hlt
      refine List.pairwise_cons.mpr ⟨?_, hs⟩
      intro q hq
      rcases List.mem_cons.mp hq with h1 | h1
      · rw [h1]; exact hlt
      · exact bytesLt_trans hlt (hp q h1)
    · split
      · rename_i hnl heq
        refine List.pairwise_cons.mpr ⟨?_, hrest⟩
        intro q hq
        rw [← heq]
        exact hp q hq
      · rename_i hnl hne
        refine List.pairwise_cons.mpr ⟨?_, ih hrest⟩
        intro q hq
        rcases mem_storageInsert rest k v q hq with h1 | h1
        · rw [h1]
          refine bytesLt_total ?_ (fun h => hne h.symm)
          cases h : bytesLt k p.1 with
          | true => exact absurd h hnl
          | false => rfl
        · exact hp q h1

theorem storageRemove_sublist (s : Storage) (k : Bytes) :
    List.Sublist (storageRemove s k) s := by
  induction s with
  | nil => simp [storageRemove]
  | cons p rest ih =>
    simp only [storageRemove]
    split
    · exact List.sublist_cons_self p rest
    · exact List.Sublist.cons₂ p ih

theorem sortedStorage_remove (s : Storage) (k : Bytes) (hs : SortedStorage s) :
    SortedStorage (storageRemove s k) :=
  List.Pairwise.sublist (storageRemove_sublist s k) hs

/-- A verifier state diff (`storage_top_trie_changes`): each key maps to
`some value` (insert or overwrite) or `none` (delete). The source stores it
in a hash map, so its keys are distinct. -/
abbrev Diff := List (Bytes × Option Bytes)

/-- `HashMap` lookup on a diff. -/
def lookupDiff : Diff → Bytes → Option (Option Bytes)
  | [], _ => none
  | p :: rest, k => if p.1 = k then some p.2 else lookupDiff rest k

/-- The `for (key, value) in &import_result.storage_top_trie_changes` loop:
`Some(value)` is inserted into the mirror, `None` removes the key. -/
def applyDiff (s : Storage) (d : Diff) : Storage :=
  d.foldl
    (fun acc p =>
      match p.2 with
      | some v => storageInsert acc p.1 v
      | none => storageRemove acc p.1)
    s

theorem lookupDiff_eq_none_of_not_mem (d : Diff) (k : Bytes)
    (h : k ∉ d.map (fun p => p.1)) : lookupDiff d k = none := by
  induction d with
  | nil => rfl
  | cons p rest ih =>
    simp only [List.map_cons, List.mem_cons] at h
    push_neg at h
    simp only [lookupDiff]
    split
    · rename_i hpk
      exact absurd hpk.symm h.1
    · exact ih h.2

theorem sortedStorage_applyDiff (s : Storage) (d : Diff)
    (hs : SortedStorage s) : SortedStorage (applyDiff s d) := by
  induction d generalizing s with
  | nil => exact hs
  | cons p rest ih =>
    simp only [applyDiff, List.foldl_cons]
    cases p.2 with
    | some v => exact ih (storageInsert s p.1 v) (sortedStorage_insert s p.1 v hs)
    | none => exact ih (storageRemove s p.1) (sortedStorage_remove s p.1 hs)

/-- Pointwise effect of applying a diff with distinct keys: a key mapped to
`some v` ends up bound to `v`, a key mapped to `none` is absent, and a key
not in the diff keeps its previous binding. -/
theorem storageGet_applyDiff (s : Storage) (d : Diff) (hs : SortedStorage s)
    (hd : (d.map (fun p => p.1)).Nodup) (k : Bytes) :
    storageGet (applyDiff s d) k =
      match lookupDiff d k with
      | some (some v) => some v
      | some none => none
      | none => storageGet s k := by
  induction d generalizing s with
  | nil => rfl
  | cons p rest ih =>
    simp only [List.map_cons, List.nodup_cons] at hd
    simp only [applyDiff, List.foldl_cons, lookupDiff]
    by_cases hk : p.1 = k
    · subst hk
      rw [if_pos rfl]
      have hrest : lookupDiff rest p.1 = none :=
        lookupDiff_eq_none_of_not_mem rest p.1 hd.1
      cases hv : p.2 with
      | some v =>
        have := ih (storageInsert s p.1 v) (sortedStorage_insert s p.1 v hs) hd.2
        simp only [applyDiff] at this
        rw [this, hrest, storageGet_insert_self]
      | none =>
        have := ih (storageRemove s p.1) (sortedStorage_remove s p.1 hs) hd.2
        simp only [applyDiff] at this
        rw [this, hrest, storageGet_remove_self s p.1 hs]
    · rw [if_neg hk]
      cases hv : p.2 with
      | some v =>
        have := ih (storageInsert s p.1 v) (sortedStorage_insert s p.1 v hs) hd.2
        simp only [applyDiff] at this
        rw [this, storageGet_insert_ne s p.1 v k (fun h => hk h.symm)]
      | none =>
        have := ih (storageRemove s p.1) (sortedStorage_remove s p.1 hs) hd.2
        simp only [applyDiff] at this
        rw [this, storageGet_remove_ne s p.1 k (fun h => hk h.symm)]

/-- Membership in a diff's key set decides `contains_key`. -/
theorem lookupDiff_isSome_iff_mem (d : Diff) (k : Bytes) :
    (lookupDiff d k).isSome = true ↔ k ∈ d.map (fun p => p.1) := by
  induction d with
  | nil => simp [lookupDiff]
  | cons p rest ih =>
    simp only [lookupDiff, List.map_cons, List.mem_cons]
    split
    · rename_i h
      simp [h.symm]
    · rename_i h
      rw [ih]
      constructor
      · exact Or.inr
      · rintro (h1 | h1)
        · exact absurd h1.symm h
        · exact h1

/-- The `parent_storage_get` closure: a point lookup in `local_storage_cache`. -/
def parentStorageGet (s : Storage) (key : Bytes) : Option Bytes :=
  storageGet s key

/-- The `parent_storage_keys_prefix` closure:
`range(prefix..).take_while(starts_with(prefix)).map(key)` over the mirror.
On the sorted-list model, `range(prefix..)` is `dropWhile (key < prefix)`. -/
def parentStorageKeysStartingWith (s : Storage) (pre : Bytes) : List Bytes :=
  ((s.dropWhile (fun p => bytesLt p.1 pre)).takeWhile
      (fun p => bytesStartsWith p.1 pre)).map (fun p => p.1)

/-- The `parent_storage_next_key` closure:
`range(Excluded(key)..).next().map(key)` over the mirror. On the sorted-list
model, `range(Excluded(key)..)` is `dropWhile (entry ≤ key)`. -/
def parentStorageNextKey (s : Storage) (key : Bytes) : Option Bytes :=
  ((s.dropWhile (fun p => !(bytesLt key p.1))).head?).map (fun p => p.1)
theorem takeWhile_startsWith_eq_filter (pre : Bytes) (s : Storage)
    (hs : SortedStorage s) (hge : ∀ e ∈ s, bytesLt e.1 pre = false) :
    s.takeWhile (fun p => bytesStartsWith p.1 pre)
      = s.filter (fun p => bytesStartsWith p.1 pre) := by
  induction s with
  | nil => rfl
  | cons e t ih =>
    rcases List.pairwise_cons.mp hs with ⟨he, ht⟩
    cases hsw : bytesStartsWith e.1 pre with
    | true =>
      have ih' := ih ht (fun f hf => hge f (List.mem_cons_of_mem e hf))
      simp [List.takeWhile_cons, List.filter_cons, hsw, ih']
    | false =>
      have hall : ∀ f ∈ t, ¬((fun p => bytesStartsWith p.1 pre) f = true) := by
        intro f hf hswf
        have h2 : bytesStartsWith e.1 pre = true :=
          bytesStartsWith_between hswf (hge e (by simp)) (he f hf)
        rw [hsw] at h2
        exact absurd h2 (by simp)
      simp [List.takeWhile_cons, List.filter_cons, hsw,
        List.filter_eq_nil_iff.mpr hall]

theorem dropWhile_lt_eq_filter (pre : Bytes) (s : Storage)
    (hs : SortedStorage s) :
    s.dropWhile (fun p => bytesLt p.1 pre)
      = s.filter (fun p => !(bytesLt p.1 pre)) := by
  induction s with
  | nil => rfl
  | cons e t ih =>
    rcases List.pairwise_cons.mp hs with ⟨he, ht⟩
    cases hlt : bytesLt e.1 pre with
    | true =>
      simp [List.dropWhile_cons, List.filter_cons, hlt, ih ht]
    | false =>
      have hall : ∀ f ∈ t, ((fun p => !(bytesLt p.1 pre)) f = true) := by
        intro f hf
        cases hflt : bytesLt f.1 pre with
        | false => simp [hflt]
        | true =>
          exfalso
          have h2 : bytesLt e.1 pre = true := bytesLt_trans (he f hf) hflt
          rw [hlt] at h2
          exact absurd h2 (by simp)
      simp [List.dropWhile_cons, List.filter_cons, hlt,
        List.filter_eq_self.mpr hall]

theorem dropWhile_le_eq_filter (key : Bytes) (s : Storage)
    (hs : SortedStorage s) :
    s.dropWhile (fun p => !(bytesLt key p.1))
      = s.filter (fun p => bytesLt key p.1) := by
  induction s with
  | nil => rfl
  | cons e t ih =>
    rcases List.pairwise_cons.mp hs with ⟨he, ht⟩
    cases hlt : bytesLt key e.1 with
    | false =>
      simp [List.dropWhile_cons, List.filter_cons, hlt, ih ht]
    | true =>
      have hall : ∀ f ∈ t, ((fun p => bytesLt key p.1) f = true) := by
        intro f hf
        exact bytesLt_trans hlt (he f hf)
      simp [List.dropWhile_cons, List.filter_cons, hlt,
        List.filter_eq_self.mpr hall]

theorem map_fst_filter (q : Bytes → Bool) (s : Storage) :
    (s.filter (fun p => q p.1)).map (fun p => p.1)
      = (s.map (fun p => p.1)).filter q := by
  induction s with
  | nil => rfl
  | cons e t ih =>
    cases hq : q e.1 with
    | true => simp [List.filter_cons, hq, ih]
    | false => simp [List.filter_cons, hq, ih]

theorem storageGet_some_iff_mem (s : Storage) (k v : Bytes)
    (hs : SortedStorage s) : storageGet s k = some v ↔ (k, v) ∈ s := by
  induction s with
  | nil => simp [storageGet]
  | cons e t ih =>
    rcases List.pairwise_cons.mp hs with ⟨he, ht⟩
    simp only [storageGet, List.mem_cons]
    split
    · rename_i hek
      constructor
      · intro h
        left
        have hv : e.2 = v := by injection h
        rw [← hek, ← hv]
      · rintro (h | h)
        · subst h
          rfl
        · exfalso
          have h2 : bytesLt k k = true := by
            simpa [hek] using he (k, v) h
          rw [bytesLt_irrefl] at h2
          exact absurd h2 (by simp)
    · rename_i hek
      rw [ih ht]
      constructor
      · exact Or.inr
      · rintro (h | h)
        · exact absurd (by rw [← h]) hek
        · exact h

/-- The bytes of the `:code` storage key (`b":code"`). -/
def codeKey : Bytes := [58, 99, 111, 100, 101]

/-- A decoded block header, reduced to the fields the task reads
(`parent_hash` for the admission rule, `number` for best-block queries). -/
structure Header where
  parent_hash : Bytes
  number : Nat
deriving DecidableEq

/-- An opaque compiled runtime (`executor::WasmVmPrototype`), identified by a
token. -/
abbrev Runtime := Nat

/-- An opaque trie-root calculation cache
(`calculate_root::CalculationCache`), identified by a token. -/
abbrev TrieCache := Nat

/-- What `block_import::verify_block` returns on success. -/
structure VerifyOk where
  storage_top_trie_changes : Diff
  parent_runtime : Runtime
  top_trie_root_calculation_cache : TrieCache
deriving DecidableEq

/-- The external collaborators of the task, kept abstract: header codec and
hash (`header::decode`, `header::hash_from_scale_encoded_header`), runtime
compilation (`executor::WasmVmPrototype::new`, `none` models the `unwrap`
panic on malformed code), and the block verifier
(`block_import::verify_block`, which reads the parent storage only through
the accessors over the mirror passed to it). -/
structure Collab where
  decodeHeader : Bytes → Option Header
  hashHeader : Bytes → Bytes
  buildRuntime : Bytes → Option Runtime
  verify : Runtime → Header → List Bytes → Header → Storage → Option TrieCache →
    Except Nat VerifyOk

/-- The mutable state of `run_block_import_task` between loop iterations.
`prevLink`/`nextChan` instrument `previous_block_database_import_finished`:
oneshot channels are numbered in creation order, `prevLink` holds the
receiver kept for the next import, `nextChan` is the next fresh channel. -/
structure ActorState where
  wasm_blob_cache : Option Runtime
  top_trie_root_calculation_cache : Option TrieCache
  local_storage_cache : Storage
  best_block_hash : Bytes
  best_block_header : Bytes
  prevLink : Option Nat
  nextChan : Nat
deriving DecidableEq

/-- The data moved into one spawned database task (§ lines 258-309 of the
source): the expected previous head, the block, the diff, the previous
step's completion receiver and this step's completion sender. -/
structure Job where
  current_best_hash : Bytes
  scale_encoded_header : Bytes
  body : List Bytes
  storage_top_trie_changes : Diff
  prev : Option Nat
  chan : Nat
deriving DecidableEq

instance : Inhabited Job := ⟨⟨[], [], [], [], none, 0⟩⟩

/-- `ImportSuccess`. -/
structure ImportSuccess where
  scale_encoded_header : Bytes
  body : List Bytes
  modified_keys : List Bytes
deriving DecidableEq

/-- `ImportError`. -/
inductive ImportError where
  | invalidHeader
  | parentIsntBest (current_best_hash : Bytes)
  | verificationFailed (err : Nat)
deriving DecidableEq

/-- A message sent on a reply channel (`send_back`). -/
inductive ReplyMsg where
  | number (n : Nat)
  | failure (e : ImportError)
  | success (s : ImportSuccess)
deriving DecidableEq

/-- How the loop continues after one command: `next` models `continue` (or
falling through to the next iteration), `halt` models `return` from
`run_block_import_task`, `panic` models an `unwrap`/`assert` failure. -/
inductive Control where
  | next
  | halt
  | panic
deriving DecidableEq

/-- Everything one iteration of the actor loop produces: the state for the
next iteration, the reply the actor itself sends (the success reply is
never sent here but by the spawned task), the spawned database task, and
how the loop continues. -/
structure StepResult where
  state : ActorState
  reply : Option ReplyMsg
  spawned : Option Job
  control : Control
deriving DecidableEq

/-- Lines 155-160: reuse `wasm_blob_cache` if present, otherwise build the
runtime from the `:code` entry of the mirror; `none` models the panics on a
missing `:code` key or malformed code. -/
def obtainRuntime (C : Collab) (cache : Option Runtime) (mirror : Storage) :
    Option Runtime :=
  match cache with
  | some vm => some vm
  | none =>
    match storageGet mirror codeKey with
    | some code => C.buildRuntime code
    | none => none

/-- A command received by the task (`ToBlockImport`); the reply channels are
modelled by the `reply`/`spawned` observations of `StepResult`. -/
inductive ToBlockImport where
  | bestBlockNumber
  | importBlock (scale_encoded_header : Bytes) (body : List Bytes)
deriving DecidableEq

/-- One iteration of the `while let Some(event)` loop of
`run_block_import_task`, for a given received command. -/
def stepActor (C : Collab) (st : ActorState) (cmd : ToBlockImport) :
    StepResult :=
  match cmd with
  | ToBlockImport.bestBlockNumber =>
    match C.decodeHeader st.best_block_header with
    | none => ⟨st, none, none, Control.panic⟩
    | some h => ⟨st, some (ReplyMsg.number h.number), none, Control.next⟩
  | ToBlockImport.importBlock scale_encoded_header body =>
    match C.decodeHeader scale_encoded_header with
    | none =>
      ⟨st, some (ReplyMsg.failure ImportError.invalidHeader), none,
        Control.halt⟩
    | some decoded_header =>
      if st.best_block_hash ≠ decoded_header.parent_hash then
        ⟨st,
          some (ReplyMsg.failure
            (ImportError.parentIsntBest st.best_block_hash)), none,
          Control.next⟩
      else
        match obtainRuntime C st.wasm_blob_cache st.local_storage_cache with
        | none =>
          ⟨{ st with wasm_blob_cache := none }, none, none, Control.panic⟩
        | some runtime_wasm_blob =>
          match C.decodeHeader st.best_block_header with
          | none =>
            ⟨{ st with wasm_blob_cache := none }, none, none, Control.panic⟩
          | some parent_header =>
            match C.verify runtime_wasm_blob decoded_header body parent_header
                st.local_storage_cache st.top_trie_root_calculation_cache with
            | Except.error err =>
              ⟨{ st with
                  wasm_blob_cache := none,
                  top_trie_root_calculation_cache := none },
                some (ReplyMsg.failure
                  (ImportError.verificationFailed err)), none, Control.next⟩
            | Except.ok import_result =>
              ⟨{ wasm_blob_cache :=
                    if (lookupDiff import_result.storage_top_trie_changes
                        codeKey).isSome
                    then none
                    else some import_result.parent_runtime,
                  top_trie_root_calculation_cache :=
                    some import_result.top_trie_root_calculation_cache,
                  local_storage_cache :=
                    applyDiff st.local_storage_cache
                      import_result.storage_top_trie_changes,
                  best_block_hash := C.hashHeader scale_encoded_header,
                  best_block_header := scale_encoded_header,
                  prevLink := some st.nextChan,
                  nextChan := st.nextChan + 1 },
                none,
                some
                  { current_best_hash := st.best_block_hash,
                    scale_encoded_header := scale_encoded_header,
                    body := body,
                    storage_top_trie_changes :=
                      import_result.storage_top_trie_changes,
                    prev := st.prevLink,
                    chan := st.nextChan },
                Control.next⟩

/-- Running the actor over a list of received commands, collecting the
spawned database tasks in spawn order. A `halt` (`return`) or `panic` stops
processing; the remaining commands are never looked at. -/
def runActor (C : Collab) : ActorState → List ToBlockImport →
    ActorState × List Job
  | st, [] => (st, [])
  | st, cmd :: rest =>
    let r := stepActor C st cmd
    match r.control with
    | Control.next =>
      let rec2 := runActor C r.state rest
      (rec2.1, r.spawned.toList ++ rec2.2)
    | _ => (r.state, r.spawned.toList)

/-- Outcome of `database.insert_new_best` as seen by the spawned task. -/
inductive DbOutcome where
  | ok
  | obsoleteCurrentHead (db_best_hash : Bytes)
  | accessError
deriving DecidableEq

/-- An observable action of a spawned database task: awaiting the previous
step's completion receiver, calling `insert_new_best`, sending on the reply
channel, sending the completion signal (`finished_tx.send(())`), or
panicking. -/
inductive PAction where
  | awaitPrev (chan : Nat)
  | dbWrite (expected_best_hash : Bytes) (scale_encoded_header : Bytes)
  | sendReply (msg : ReplyMsg)
  | signalDone (chan : Nat)
  | panicked
deriving DecidableEq

/-- The sequence of actions the spawned task of lines 267-308 performs, for
a given `insert_new_best` outcome. On `Ok` it replies `ImportSuccess` and
then signals completion; on `ObsoleteCurrentHead` it replies
`ParentIsntBest` with the database's actual head and `return`s (so
`finished_tx` is dropped, not sent); on an access error it panics. -/
def persistActions (job : Job) (out : DbOutcome) : List PAction :=
  (match job.prev with
   | some c => [PAction.awaitPrev c]
   | none => []) ++
  PAction.dbWrite job.current_best_hash job.scale_encoded_header ::
  (match out with
   | DbOutcome.ok =>
     [PAction.sendReply (ReplyMsg.success
        ⟨job.scale_encoded_header, job.body,
          job.storage_top_trie_changes.map (fun p => p.1)⟩),
      PAction.signalDone job.chan]
   | DbOutcome.obsoleteCurrentHead db_best_hash =>
     [PAction.sendReply
        (ReplyMsg.failure (ImportError.parentIsntBest db_best_hash))]
   | DbOutcome.accessError => [PAction.panicked])

/-- Index of the `insert_new_best` call in `persistActions`: right after the
await of the previous completion signal, if there is one. -/
def writeIdx (job : Job) : Nat :=
  match job.prev with
  | none => 0
  | some _ => 1

/-- Action list of the `i`-th spawned task of a run. -/
def actionsOf (jobs : List Job) (out : Nat → DbOutcome) (i : Nat) :
    List PAction :=
  persistActions (jobs.getD i default) (out i)

/-- A schedule assigns a global time `t i a` to the `a`-th action of the
`i`-th spawned task. It is valid when each task performs its actions in
program order, and a task whose await is chained to its predecessor's
completion channel starts only after the predecessor has finished its last
action (the `oneshot` receiver resolves when `finished_tx` is sent, or when
it is dropped as the predecessor's future ends). -/
def ValidSchedule (jobs : List Job) (out : Nat → DbOutcome)
    (t : Nat → Nat → Nat) : Prop :=
  (∀ i, i < jobs.length → ∀ a, a < (actionsOf jobs out i).length →
    ∀ b, b < (actionsOf jobs out i).length → a < b → t i a < t i b) ∧
  (∀ i, i < jobs.length - 1 →
    (jobs.getD (i + 1) default).prev = some ((jobs.getD i default).chan) →
    t i ((actionsOf jobs out i).length - 1) < t (i + 1) 0)

instance (jobs : List Job) (out : Nat → DbOutcome) (t : Nat → Nat → Nat) :
    Decidable (ValidSchedule jobs out t) := by
  unfold ValidSchedule; infer_instance

/-- The state of the task right before the main loop (lines 79-123): empty
runtime cache, fresh empty trie cache, and mirror/head identity loaded from
the database's best block. -/
def initActorState (db_best_block_hash : Bytes) (db_header : Bytes)
    (db_storage : Storage) : ActorState :=
  { wasm_blob_cache := none,
    top_trie_root_calculation_cache := some 0,
    local_storage_cache := db_storage,
    best_block_hash := db_best_block_hash,
    best_block_header := db_header,
    prevLink := none,
    nextChan := 0 }

/-- The implicit head-identity invariant: `best_block_hash` is the hash of
the bytes cached in `best_block_header`. -/
def HeadConsistent (C : Collab) (st : ActorState) : Prop :=
  st.best_block_hash = C.hashHeader st.best_block_header

/-- Example collaborators: identity hash, a header codec that fails on empty
bytes and otherwise reads the parent hash from the tail, a fixed runtime
builder, and a verifier that always succeeds with a fixed diff. -/
def CexOk : Collab :=
  { decodeHeader := fun b => if b = [] then none else some ⟨b.tail, b.length⟩,
    hashHeader := fun b => b,
    buildRuntime := fun _ => some 100,
    verify := fun _ _ _ _ _ _ =>
      Except.ok ⟨[([5], some [6]), ([7], none)], 42, 9⟩ }

/-- Example collaborators whose verifier always fails with error `3`. -/
def CexFail : Collab :=
  { decodeHeader := fun b => if b = [] then none else some ⟨b.tail, b.length⟩,
    hashHeader := fun b => b,
    buildRuntime := fun _ => some 100,
    verify := fun _ _ _ _ _ _ => Except.error 3 }

/-- An example actor state: populated caches, one-entry body of storage plus
the `:code` entry, head hash `[0]` for header bytes `[0]`. -/
def stEx : ActorState :=
  { wasm_blob_cache := some 1,
    top_trie_root_calculation_cache := some 0,
    local_storage_cache := [([7], [8]), (codeKey, [0])],
    best_block_hash := [0],
    best_block_header := [0],
    prevLink := none,
    nextChan := 0 }

/-- An example spawned database task. -/
def jobEx : Job :=
  { current_best_hash := [0],
    scale_encoded_header := [1, 0],
    body := [],
    storage_top_trie_changes := [([5], some [6]), ([7], none)],
    prev := some 0,
    chan := 1 }

/-- C2 counterexample: a verification failure does not leave all in-memory
state unchanged. With a populated runtime cache and trie cache, a
failing import replies `VerificationFailed` but leaves `wasm_blob_cache` and
`top_trie_root_calculation_cache` empty, because both were taken before
verification and are not restored on failure. -/
theorem c2_verification_failure_state_counterexample :
    (stepActor CexFail stEx (ToBlockImport.importBlock [1, 0] [])).reply
        = some (ReplyMsg.failure (ImportError.verificationFailed 3))
    ∧ (stepActor CexFail stEx
          (ToBlockImport.importBlock [1, 0] [])).state.wasm_blob_cache
        ≠ stEx.wasm_blob_cache
    ∧ (stepActor CexFail stEx
          (ToBlockImport.importBlock [1, 0]
            [])).state.top_trie_root_calculation_cache
        ≠ stEx.top_trie_root_calculation_cache := by
  decide

/-- C2 (amended): a verification failure replies `VerificationFailed(err)`,
leaves the storage mirror and the head identity (`best_block_hash`,
`best_block_header`) unchanged, spawns nothing and continues with the next
command; the trie cache is left empty (it was taken for the verifier and is
not restored) and the runtime cache is left empty (the cached runtime was
consumed by the failed verification). -/
theorem c2_verification_failure_amended (C : Collab) (st : ActorState)
    (hdr : Bytes) (body : List Bytes) (dh ph : Header) (rt : Runtime)
    (err : Nat)
    (hdec : C.decodeHeader hdr = some dh)
    (hpar : st.best_block_hash = dh.parent_hash)
    (hrt : obtainRuntime C st.wasm_blob_cache st.local_storage_cache
      = some rt)
    (hph : C.decodeHeader st.best_block_header = some ph)
    (hver : C.verify rt dh body ph st.local_storage_cache
        st.top_trie_root_calculation_cache = Except.error err) :
    stepActor C st (ToBlockImport.importBlock hdr body)
      = ⟨{ st with
            wasm_blob_cache := none,
            top_trie_root_calculation_cache := none },
          some (ReplyMsg.failure (ImportError.verificationFailed err)), none,
          Control.next⟩ := by
  simp [stepActor, hdec, hpar, hrt, hph, hver]

/-- C2 amended witness at a concrete failing import. -/
theorem c2_verification_failure_amended_witness :
    stepActor CexFail stEx (ToBlockImport.importBlock [1, 0] [])
      = ⟨{ stEx with
            wasm_blob_cache := none,
            top_trie_root_calculation_cache := none },
          some (ReplyMsg.failure (ImportError.verificationFailed 3)), none,
          Control.next⟩ :=
  c2_verification_failure_amended CexFail stEx [1, 0] [] ⟨[0], 2⟩ ⟨[], 1⟩ 1 3
    (by decide) (by decide) (by decide) (by decide) rfl

/-- C3: an import whose header bytes fail to decode replies `InvalidHeader`
and leaves all state unchanged, but the source then executes `return`
(modelled by `Control.halt`), terminating `run_block_import_task`, so the
remaining commands are never processed — the actor does not proceed to the
next command as the specification requires. -/
theorem c3_invalid_header_replies_and_halts (C : Collab) (st : ActorState)
    (hdr : Bytes) (body : List Bytes) (hdec : C.decodeHeader hdr = none) :
    stepActor C st (ToBlockImport.importBlock hdr body)
      = ⟨st, some (ReplyMsg.failure ImportError.invalidHeader), none,
          Control.halt⟩
    ∧ ∀ rest, runActor C st (ToBlockImport.importBlock hdr body :: rest)
        = (st, []) := by
  constructor
  · simp [stepActor, hdec]
  · intro rest
    simp [runActor, stepActor, hdec]

/-- C3 witness: the failing input `[]` (undecodable header bytes) followed
by a further command that is never processed. -/
theorem c3_invalid_header_witness :
    stepActor CexOk stEx (ToBlockImport.importBlock [] [])
      = ⟨stEx, some (ReplyMsg.failure ImportError.invalidHeader), none,
          Control.halt⟩
    ∧ runActor CexOk stEx
        [ToBlockImport.importBlock [] [], ToBlockImport.bestBlockNumber]
      = (stEx, []) := by
  have h := c3_invalid_header_replies_and_halts CexOk stEx [] [] (by decide)
  exact ⟨h.1, h.2 [ToBlockImport.bestBlockNumber]⟩

/-- C4: an import whose decoded parent hash differs from the current best
hash replies `ParentIsntBest` carrying the current best hash, changes no
state, spawns nothing, continues with the next command, and its outcome is
independent of the verifier, runtime builder and hasher (no verification is
attempted). -/
theorem c4_parent_mismatch_rejection (C C2 : Collab) (st : ActorState)
    (hdr : Bytes) (body : List Bytes) (dh : Header)
    (hdec : C.decodeHeader hdr = some dh)
    (hsame : C2.decodeHeader = C.decodeHeader)
    (hne : st.best_block_hash ≠ dh.parent_hash) :
    stepActor C st (ToBlockImport.importBlock hdr body)
      = ⟨st,
          some (ReplyMsg.failure
            (ImportError.parentIsntBest st.best_block_hash)), none,
          Control.next⟩
    ∧ stepActor C2 st (ToBlockImport.importBlock hdr body)
      = stepActor C st (ToBlockImport.importBlock hdr body) := by
  constructor
  · simp [stepActor, hdec, hne]
  · simp [stepActor, hsame, hdec, hne]

/-- C4 witness: a block whose parent hash `[9]` is not the best hash `[0]`,
rejected identically under two different verifiers. -/
theorem c4_parent_mismatch_rejection_witness :
    stepActor CexOk stEx (ToBlockImport.importBlock [9, 9] [])
      = ⟨stEx,
          some (ReplyMsg.failure (ImportError.parentIsntBest [0])), none,
          Control.next⟩
    ∧ stepActor CexFail stEx (ToBlockImport.importBlock [9, 9] [])
      = stepActor CexOk stEx (ToBlockImport.importBlock [9, 9] []) := by
  have h := c4_parent_mismatch_rejection CexOk CexFail stEx [9, 9] []
    ⟨[9], 2⟩ (by decide) rfl (by decide)
  exact h

/-- C5: a successful import applies the verifier's diff to the mirror key by
key (`some value` inserts or overwrites, `none` removes), advances
`best_block_hash`/`best_block_header` to the candidate's hash and header
bytes, and records the previous best hash in the spawned database task. -/
theorem c5_success_applies_diff_and_advances_head (C : Collab)
    (st : ActorState) (hdr : Bytes) (body : List Bytes) (dh ph : Header)
    (rt : Runtime) (res : VerifyOk)
    (hdec : C.decodeHeader hdr = some dh)
    (hpar : st.best_block_hash = dh.parent_hash)
    (hrt : obtainRuntime C st.wasm_blob_cache st.local_storage_cache
      = some rt)
    (hph : C.decodeHeader st.best_block_header = some ph)
    (hver : C.verify rt dh body ph st.local_storage_cache
        st.top_trie_root_calculation_cache = Except.ok res)
    (hs : SortedStorage st.local_storage_cache)
    (hnd : (res.storage_top_trie_changes.map (fun p => p.1)).Nodup) :
    (∀ k, storageGet
        (stepActor C st
          (ToBlockImport.importBlock hdr body)).state.local_storage_cache k
      = match lookupDiff res.storage_top_trie_changes k with
        | some (some v) => some v
        | some none => none
        | none => storageGet st.local_storage_cache k)
    ∧ (stepActor C st
          (ToBlockImport.importBlock hdr body)).state.best_block_hash
        = C.hashHeader hdr
    ∧ (stepActor C st
          (ToBlockImport.importBlock hdr body)).state.best_block_header
        = hdr
    ∧ (stepActor C st (ToBlockImport.importBlock hdr body)).spawned
        = some
            { current_best_hash := st.best_block_hash,
              scale_encoded_header := hdr,
              body := body,
              storage_top_trie_changes := res.storage_top_trie_changes,
              prev := st.prevLink,
              chan := st.nextChan } := by
  have hmir : (stepActor C st
        (ToBlockImport.importBlock hdr body)).state.local_storage_cache
      = applyDiff st.local_storage_cache res.storage_top_trie_changes := by
    simp [stepActor, hdec, hpar, hrt, hph, hver]
  refine ⟨?_, ?_, ?_, ?_⟩
  · intro k
    rw [hmir]
    exact storageGet_applyDiff st.local_storage_cache
      res.storage_top_trie_changes hs hnd k
  · simp [stepActor, hdec, hpar, hrt, hph, hver]
  · simp [stepActor, hdec, hpar, hrt, hph, hver]
  · simp [stepActor, hdec, hpar, hrt, hph, hver]

/-- C5 witness: after importing the example block, the inserted key reads
back its new value, the removed key is gone, an untouched key keeps its
value, and the head identity has advanced. -/
theorem c5_success_witness :
    storageGet (stepActor CexOk stEx
        (ToBlockImport.importBlock [1, 0] [])).state.local_storage_cache [5]
      = some [6]
    ∧ storageGet (stepActor CexOk stEx
        (ToBlockImport.importBlock [1, 0] [])).state.local_storage_cache [7]
      = none
    ∧ (stepActor CexOk stEx
        (ToBlockImport.importBlock [1, 0] [])).state.best_block_hash
      = [1, 0] := by
  have h := c5_success_applies_diff_and_advances_head CexOk stEx [1, 0] []
    ⟨[0], 2⟩ ⟨[], 1⟩ 1 ⟨[([5], some [6]), ([7], none)], 42, 9⟩
    (by decide) (by decide) (by decide) (by decide) rfl (by decide)
    (by decide)
  refine ⟨?_, ?_, ?_⟩
  · rw [h.1 [5]]; decide
  · rw [h.1 [7]]; decide
  · rw [h.2.1]; decide

/-- C6: on a successful import, if the diff contains the `:code` key the
runtime cache is left empty, and a following import (runtime cache empty)
obtains its runtime by building it from the `:code` value now in the
mirror; if the diff does not contain `:code`, the runtime cache is exactly
the runtime returned by the verifier. -/
theorem c6_runtime_cache_code_key (C : Collab) (st : ActorState)
    (hdr : Bytes) (body : List Bytes) (dh ph : Header) (rt : Runtime)
    (res : VerifyOk)
    (hdec : C.decodeHeader hdr = some dh)
    (hpar : st.best_block_hash = dh.parent_hash)
    (hrt : obtainRuntime C st.wasm_blob_cache st.local_storage_cache
      = some rt)
    (hph : C.decodeHeader st.best_block_header = some ph)
    (hver : C.verify rt dh body ph st.local_storage_cache
        st.top_trie_root_calculation_cache = Except.ok res) :
    (codeKey ∈ res.storage_top_trie_changes.map (fun p => p.1) →
      (stepActor C st
          (ToBlockImport.importBlock hdr body)).state.wasm_blob_cache = none)
    ∧ (codeKey ∉ res.storage_top_trie_changes.map (fun p => p.1) →
      (stepActor C st
          (ToBlockImport.importBlock hdr body)).state.wasm_blob_cache
        = some res.parent_runtime)
    ∧ (∀ code rt2,
        codeKey ∈ res.storage_top_trie_changes.map (fun p => p.1) →
        storageGet (stepActor C st
            (ToBlockImport.importBlock
              hdr body)).state.local_storage_cache codeKey = some code →
        C.buildRuntime code = some rt2 →
        obtainRuntime C
            (stepActor C st
              (ToBlockImport.importBlock hdr body)).state.wasm_blob_cache
            (stepActor C st
              (ToBlockImport.importBlock
                hdr body)).state.local_storage_cache
          = some rt2) := by
  have hw : (stepActor C st
        (ToBlockImport.importBlock hdr body)).state.wasm_blob_cache
      = if (lookupDiff res.storage_top_trie_changes codeKey).isSome
        then none
        else some res.parent_runtime := by
    simp [stepActor, hdec, hpar, hrt, hph, hver]
  refine ⟨?_, ?_, ?_⟩
  · intro hmem
    rw [hw, if_pos ((lookupDiff_isSome_iff_mem _ _).mpr hmem)]
  · intro hmem
    rw [hw, if_neg]
    intro hsome
    exact hmem ((lookupDiff_isSome_iff_mem _ _).mp hsome)
  · intro code rt2 hmem hget hbuild
    rw [hw, if_pos ((lookupDiff_isSome_iff_mem _ _).mpr hmem)]
    simp [obtainRuntime, hget, hbuild]

/-- Example collaborators whose verifier succeeds with a diff that rewrites
the `:code` entry. -/
def CexCode : Collab :=
  { decodeHeader := fun b => if b = [] then none else some ⟨b.tail, b.length⟩,
    hashHeader := fun b => b,
    buildRuntime := fun _ => some 100,
    verify := fun _ _ _ _ _ _ =>
      Except.ok ⟨[(codeKey, some [9])], 43, 9⟩ }

/-- C6 witness: a diff not touching `:code` keeps the verifier-returned
runtime; a diff rewriting `:code` clears the cache and the next runtime is
rebuilt from the new `:code` value in the mirror. -/
theorem c6_runtime_cache_code_key_witness :
    (stepActor CexOk stEx
        (ToBlockImport.importBlock [1, 0] [])).state.wasm_blob_cache
      = some 42
    ∧ (stepActor CexCode stEx
        (ToBlockImport.importBlock [1, 0] [])).state.wasm_blob_cache = none
    ∧ obtainRuntime CexCode
        (stepActor CexCode stEx
          (ToBlockImport.importBlock [1, 0] [])).state.wasm_blob_cache
        (stepActor CexCode stEx
          (ToBlockImport.importBlock [1, 0] [])).state.local_storage_cache
      = some 100 := by
  have h1 := c6_runtime_cache_code_key CexOk stEx [1, 0] []
    ⟨[0], 2⟩ ⟨[], 1⟩ 1 ⟨[([5], some [6]), ([7], none)], 42, 9⟩
    (by decide) (by decide) (by decide) (by decide) rfl
  have h2 := c6_runtime_cache_code_key CexCode stEx [1, 0] []
    ⟨[0], 2⟩ ⟨[], 1⟩ 1 ⟨[(codeKey, some [9])], 43, 9⟩
    (by decide) (by decide) (by decide) (by decide) rfl
  refine ⟨h1.2.1 (by decide), h2.1 (by decide), ?_⟩
  exact h2.2.2 [9] 100 (by decide) (by decide) (by decide)

/-- C7 counterexample: on the obsolete-head outcome a spawned persistence
step performs no completion-signal send at all (the source `return`s before
`finished_tx.send(())`), while it does send it on the successful outcome. -/
theorem c7_obsolete_head_no_signal_counterexample :
    PAction.signalDone jobEx.chan
        ∉ persistActions jobEx (DbOutcome.obsoleteCurrentHead [7])
    ∧ (persistActions jobEx (DbOutcome.obsoleteCurrentHead [7])).countP
        (fun a => match a with
          | PAction.signalDone _ => true
          | _ => false) = 0
    ∧ PAction.signalDone jobEx.chan ∈ persistActions jobEx DbOutcome.ok := by
  decide

/-- C7 (amended): a spawned persistence step sends its completion signal
exactly on the successful-write outcome; on the obsolete-head outcome it
replies and returns without sending it (the dropped sender, not an explicit
send, is what releases the next chained step's await). -/
theorem c7_signal_sent_iff_write_succeeded (job : Job) (out : DbOutcome) :
    (PAction.signalDone job.chan ∈ persistActions job out
      ↔ out = DbOutcome.ok)
    ∧ ∀ c, PAction.signalDone c ∈ persistActions job out → c = job.chan := by
  cases hp : job.prev <;> cases out <;> simp [persistActions, hp]

/-- C8: the `ImportSuccess` reply is never sent by the actor loop itself; a
persistence step sends it only on the successful-write outcome, with
`modified_keys` exactly the keys of the verifier's diff (inserted or
deleted); and in the step's program the reply comes after the database
write. -/
theorem c8_success_reply_by_persistence_step_only :
    (∀ (C : Collab) (st : ActorState) (cmd : ToBlockImport)
        (s : ImportSuccess),
      (stepActor C st cmd).reply ≠ some (ReplyMsg.success s))
    ∧ (∀ (job : Job) (out : DbOutcome) (r : ImportSuccess),
        PAction.sendReply (ReplyMsg.success r) ∈ persistActions job out →
        out = DbOutcome.ok
        ∧ r.modified_keys
            = job.storage_top_trie_changes.map (fun p => p.1))
    ∧ (∀ job : Job,
        List.Sublist
          [PAction.dbWrite job.current_best_hash job.scale_encoded_header,
            PAction.sendReply (ReplyMsg.success
              ⟨job.scale_encoded_header, job.body,
                job.storage_top_trie_changes.map (fun p => p.1)⟩)]
          (persistActions job DbOutcome.ok)) := by
  refine ⟨?_, ?_, ?_⟩
  · intro C st cmd s
    cases cmd with
    | bestBlockNumber =>
      simp only [stepActor]
      split <;> simp
    | importBlock hdr body =>
      simp only [stepActor]
      split
      · simp
      · split
        · simp
        · split
          · simp
          · split
            · simp
            · split <;> simp
  · intro job out r hmem
    cases hp : job.prev <;> cases out <;>
      simp [persistActions, hp] at hmem <;> simp_all
  · intro job
    cases hp : job.prev with
    | none =>
      simp only [persistActions, hp, List.nil_append]
      exact List.Sublist.cons₂ _ (List.Sublist.cons₂ _ (List.nil_sublist _))
    | some c =>
      simp only [persistActions, hp, List.singleton_append]
      exact List.Sublist.cons _
        (List.Sublist.cons₂ _ (List.Sublist.cons₂ _ (List.nil_sublist _)))

/-- C8 witness: the success reply observed in a concrete persistence step's
program carries exactly the diff's keys. -/
theorem c8_success_reply_witness :
    DbOutcome.ok = DbOutcome.ok
    ∧ (ImportSuccess.mk [1, 0] [] [[5], [7]]).modified_keys
        = jobEx.storage_top_trie_changes.map (fun p => p.1) :=
  c8_success_reply_by_persistence_step_only.2.1 jobEx DbOutcome.ok
    ⟨[1, 0], [], [[5], [7]]⟩ (by decide)

theorem filter_startsWith_absorb (pre : Bytes) (l : Storage) :
    (l.filter (fun p => !(bytesLt p.1 pre))).filter
        (fun p => bytesStartsWith p.1 pre)
      = l.filter (fun p => bytesStartsWith p.1 pre) := by
  induction l with
  | nil => rfl
  | cons e t ih =>
    cases hsw : bytesStartsWith e.1 pre with
    | true =>
      have hlt : bytesLt e.1 pre = false := bytesStartsWith_not_lt hsw
      simp [List.filter_cons, hsw, hlt, ih]
    | false =>
      cases hlt : bytesLt e.1 pre with
      | true => simp [List.filter_cons, hsw, hlt, ih]
      | false => simp [List.filter_cons, hsw, hlt, ih]

/-- C9: over any (sorted) mirror, the three parent-storage accessors handed
to the verifier read exactly the mirror: point lookup returns the mirror's
binding, the keys-with-prefix query returns exactly the mirror keys that
start with the prefix, and the next-key query returns the smallest mirror
key strictly greater than the argument, `none` if there is none. -/
theorem c9_parent_storage_accessors (s : Storage) (hs : SortedStorage s) :
    (∀ k v, parentStorageGet s k = some v ↔ (k, v) ∈ s)
    ∧ (∀ k, parentStorageGet s k = none ↔ k ∉ storageKeys s)
    ∧ (∀ pre, parentStorageKeysStartingWith s pre
        = (storageKeys s).filter (fun k => bytesStartsWith k pre))
    ∧ (∀ key,
        (parentStorageNextKey s key = none
          ↔ ∀ j ∈ storageKeys s, bytesLt key j = false)
        ∧ ∀ r, parentStorageNextKey s key = some r →
            r ∈ storageKeys s ∧ bytesLt key r = true
            ∧ ∀ j ∈ storageKeys s, bytesLt key j = true →
                r = j ∨ bytesLt r j = true) := by
  refine ⟨?_, ?_, ?_, ?_⟩
  · intro k v
    exact storageGet_some_iff_mem s k v hs
  · intro k
    constructor
    · intro h hk
      rcases List.mem_map.mp hk with ⟨p, hp, hpk⟩
      have hmem : (k, p.2) ∈ s := by
        rw [← hpk]
        simpa using hp
      have := (storageGet_some_iff_mem s k p.2 hs).mpr hmem
      rw [parentStorageGet] at h
      rw [h] at this
      exact absurd this (by simp)
    · intro h
      exact storageGet_eq_none_of_not_mem s k
        (fun p hp hpk => h (List.mem_map.mpr ⟨p, hp, hpk⟩))
  · intro pre
    unfold parentStorageKeysStartingWith
    rw [dropWhile_lt_eq_filter pre s hs]
    have hsf : SortedStorage (s.filter (fun p => !(bytesLt p.1 pre))) :=
      List.Pairwise.sublist (List.filter_sublist s) hs
    have hge : ∀ e ∈ s.filter (fun p => !(bytesLt p.1 pre)),
        bytesLt e.1 pre = false := by
      intro e he
      have := (List.mem_filter.mp he).2
      simpa using this
    rw [takeWhile_startsWith_eq_filter pre _ hsf hge,
      filter_startsWith_absorb pre s,
      map_fst_filter (fun k => bytesStartsWith k pre) s]
    rfl
  · intro key
    have hdw := dropWhile_le_eq_filter key s hs
    constructor
    · unfold parentStorageNextKey
      rw [hdw, Option.map_eq_none', List.head?_eq_none_iff,
        List.filter_eq_nil_iff]
      constructor
      · intro h j hj
        rcases List.mem_map.mp hj with ⟨p, hp, hpk⟩
        have := h p hp
        rw [hpk] at this
        simpa using this
      · intro h p hp
        have := h p.1 (List.mem_map.mpr ⟨p, hp, rfl⟩)
        simp [this]
    · intro r hr
      unfold parentStorageNextKey at hr
      rw [hdw] at hr
      cases hfil : List.filter (fun p => bytesLt key p.1) s with
      | nil =>
        rw [hfil] at hr
        simp at hr
      | cons q rest =>
        rw [hfil] at hr
        simp at hr
        subst hr
        have hqmem : q ∈ List.filter (fun p => bytesLt key p.1) s := by
          rw [hfil]
          exact List.mem_cons_self q rest
        have hq := List.mem_filter.mp hqmem
        refine ⟨List.mem_map.mpr ⟨q, hq.1, rfl⟩, by simpa using hq.2, ?_⟩
        intro j hj hltj
        rcases List.mem_map.mp hj with ⟨p, hp, hpk⟩
        have hpfil : p ∈ List.filter (fun p => bytesLt key p.1) s :=
          List.mem_filter.mpr ⟨hp, by simpa [hpk] using hltj⟩
        rw [hfil] at hpfil
        rcases List.mem_cons.mp hpfil with h1 | h1
        · left
          rw [← hpk, h1]
        · right
          have hsorted : SortedStorage
              (List.filter (fun p => bytesLt key p.1) s) :=
            List.Pairwise.sublist (List.filter_sublist s) hs
          rw [hfil] at hsorted
          have := (List.pairwise_cons.mp hsorted).1 p h1
          rw [hpk] at this
          exact this

/-- C9 witness at a concrete sorted mirror: lookups, a prefix query and a
next-key query all agree with the characterization. -/
theorem c9_parent_storage_accessors_witness :
    parentStorageGet [([1], [10]), ([1, 2], [11]), ([2], [12])] [1, 2]
      = some [11]
    ∧ parentStorageKeysStartingWith
        [([1], [10]), ([1, 2], [11]), ([2], [12])] [1] = [[1], [1, 2]]
    ∧ parentStorageNextKey [([1], [10]), ([1, 2], [11]), ([2], [12])] [1]
      = some [1, 2] := by
  have h := c9_parent_storage_accessors
    [([1], [10]), ([1, 2], [11]), ([2], [12])] (by decide)
  refine ⟨(h.1 [1, 2] [11]).mpr (by decide), ?_, ?_⟩
  · rw [h.2.2.1 [1]]
    decide
  · cases hnk : parentStorageNextKey
        [([1], [10]), ([1, 2], [11]), ([2], [12])] [1] with
    | none =>
      have := ((h.2.2.2 [1]).1).mp hnk [1, 2] (by decide)
      exact absurd this (by decide)
    | some r =>
      rcases (h.2.2.2 [1]).2 r hnk with ⟨hmem, hlt, hmin⟩
      have h12 : r = [1, 2] ∨ bytesLt r [1, 2] = true :=
        hmin [1, 2] (by decide) (by decide)
      rcases h12 with rfl | hlt2
      · rfl
      · exfalso
        simp [storageKeys] at hmem
        rcases hmem with rfl | rfl | rfl
        · exact absurd hlt (by decide)
        · exact absurd hlt2 (by decide)
        · exact absurd hlt2 (by decide)

/-- C10: the head identity is consistent — `best_block_hash` is the hash of
the bytes in `best_block_header` — at startup (given the database's own
hash/header consistency for the loaded best block) and is preserved by
every loop iteration: both fields are updated together, the hash recomputed
from the submitted header bytes. -/
theorem c10_head_identity_invariant (C : Collab) :
    (∀ h b m, h = C.hashHeader b → HeadConsistent C (initActorState h b m))
    ∧ ∀ (st : ActorState) (cmd : ToBlockImport),
        HeadConsistent C st → HeadConsistent C (stepActor C st cmd).state := by
  constructor
  · intro h b m hh
    simpa [HeadConsistent, initActorState] using hh
  · intro st cmd hc
    cases cmd with
    | bestBlockNumber =>
      simp only [stepActor]
      split <;> exact hc
    | importBlock hdr body =>
      simp only [stepActor]
      split
      · exact hc
      · split
        · exact hc
        · split
          · simpa [HeadConsistent] using hc
          · split
            · simpa [HeadConsistent] using hc
            · split
              · simpa [HeadConsistent] using hc
              · simp [HeadConsistent]

/-- C10 witness: the invariant holds at a concrete startup state and after
a concrete successful import. -/
theorem c10_head_identity_witness :
    HeadConsistent CexOk (initActorState [0] [0] [])
    ∧ HeadConsistent CexOk
        (stepActor CexOk stEx (ToBlockImport.importBlock [1, 0] [])).state := by
  constructor
  · exact (c10_head_identity_invariant CexOk).1 [0] [0] [] rfl
  · exact (c10_head_identity_invariant CexOk).2 stEx
      (ToBlockImport.importBlock [1, 0] []) rfl

theorem stepActor_spawn_cases (C : Collab) (st : ActorState)
    (cmd : ToBlockImport) :
    ((stepActor C st cmd).spawned = none
      ∧ (stepActor C st cmd).state.prevLink = st.prevLink
      ∧ (stepActor C st cmd).state.nextChan = st.nextChan)
    ∨ (∃ job, (stepActor C st cmd).spawned = some job
        ∧ job.chan = st.nextChan
        ∧ job.prev = st.prevLink
        ∧ (stepActor C st cmd).state.prevLink = some st.nextChan
        ∧ (stepActor C st cmd).state.nextChan = st.nextChan + 1
        ∧ (stepActor C st cmd).control = Control.next) := by
  cases cmd with
  | bestBlockNumber =>
    simp only [stepActor]
    split <;> exact Or.inl ⟨rfl, rfl, rfl⟩
  | importBlock hdr body =>
    simp only [stepActor]
    split
    · exact Or.inl ⟨rfl, rfl, rfl⟩
    · split
      · exact Or.inl ⟨rfl, rfl, rfl⟩
      · split
        · exact Or.inl ⟨rfl, rfl, rfl⟩
        · split
          · exact Or.inl ⟨rfl, rfl, rfl⟩
          · split
            · exact Or.inl ⟨rfl, rfl, rfl⟩
            · exact Or.inr ⟨_, rfl, rfl, rfl, rfl, rfl, rfl⟩

theorem runActor_cons_next (C : Collab) (st : ActorState)
    (cmd : ToBlockImport) (rest : List ToBlockImport)
    (h : (stepActor C st cmd).control = Control.next) :
    runActor C st (cmd :: rest)
      = ((runActor C (stepActor C st cmd).state rest).1,
          (stepActor C st cmd).spawned.toList
            ++ (runActor C (stepActor C st cmd).state rest).2) := by
  simp [runActor, h]

theorem runActor_cons_stop (C : Collab) (st : ActorState)
    (cmd : ToBlockImport) (rest : List ToBlockImport)
    (h : (stepActor C st cmd).control ≠ Control.next) :
    runActor C st (cmd :: rest)
      = ((stepActor C st cmd).state, (stepActor C st cmd).spawned.toList) := by
  cases hc : (stepActor C st cmd).control with
  | next => exact absurd hc h
  | halt => simp [runActor, hc]
  | panic => simp [runActor, hc]

theorem runActor_chain (C : Collab) (cmds : List ToBlockImport) :
    ∀ st : ActorState,
      st.prevLink
        = (if st.nextChan = 0 then none else some (st.nextChan - 1)) →
      ∀ i, i < (runActor C st cmds).2.length →
        ((runActor C st cmds).2.getD i default).chan = st.nextChan + i
        ∧ ((runActor C st cmds).2.getD i default).prev
            = (if st.nextChan + i = 0 then none
                else some (st.nextChan + i - 1)) := by
  induction cmds with
  | nil =>
    intro st hst i hi
    simp [runActor] at hi
  | cons cmd rest ih =>
    intro st hst i hi
    rcases stepActor_spawn_cases C st cmd with
      ⟨hsp, hpl, hnc⟩ | ⟨job, hsp, hchan, hprev, hpl, hnc, hctl⟩
    · cases hctl : (stepActor C st cmd).control with
      | next =>
        rw [runActor_cons_next C st cmd rest hctl] at hi ⊢
        simp only [hsp, Option.toList_none, List.nil_append] at hi ⊢
        have hst2 : (stepActor C st cmd).state.prevLink
            = (if (stepActor C st cmd).state.nextChan = 0 then none
                else some ((stepActor C st cmd).state.nextChan - 1)) := by
          rw [hpl, hnc]
          exact hst
        have := ih (stepActor C st cmd).state hst2 i hi
        rw [hnc] at this
        exact this
      | halt =>
        rw [runActor_cons_stop C st cmd rest (by rw [hctl]; simp)] at hi
        simp [hsp] at hi
      | panic =>
        rw [runActor_cons_stop C st cmd rest (by rw [hctl]; simp)] at hi
        simp [hsp] at hi
    · rw [runActor_cons_next C st cmd rest hctl] at hi ⊢
      simp only [hsp, Option.toList_some, List.singleton_append] at hi ⊢
      cases i with
      | zero =>
        refine ⟨by simpa using hchan, ?_⟩
        simp only [List.getD_cons_zero]
        rw [hprev, hst]
        simp
      | succ j =>
        simp only [List.getD_cons_succ]
        have hst2 : (stepActor C st cmd).state.prevLink
            = (if (stepActor C st cmd).state.nextChan = 0 then none
                else some ((stepActor C st cmd).state.nextChan - 1)) := by
          rw [hpl, hnc]
          simp
        have hj : j < (runActor C (stepActor C st cmd).state rest).2.length := by
          simp at hi
          omega
        have := ih (stepActor C st cmd).state hst2 j hj
        rw [hnc] at this
        constructor
        · rw [this.1]
          omega
        · rw [this.2]
          have harith : st.nextChan + 1 + j = st.nextChan + (j + 1) := by omega
          rw [harith]

theorem writeIdx_lt_length_sub_one (job : Job) (out : DbOutcome) :
    writeIdx job < (persistActions job out).length - 1 := by
  cases hp : job.prev <;> cases out <;> simp [persistActions, writeIdx, hp]

/-- C1: from the initial state the actor chains its spawned persistence
steps consecutively (step `i` holds the completion channel of step `i-1`);
each chained step first awaits that channel, at its first action, before
its `insert_new_best` call, at the next action; and in every valid schedule
of the spawned steps the database writes happen in exactly the spawn
(acceptance) order, whatever the write outcomes and however verification
overlaps persistence. -/
theorem c1_persistence_steps_write_in_acceptance_order (C : Collab)
    (st0 : ActorState) (cmds : List ToBlockImport)
    (h0 : st0.prevLink = none) (h1 : st0.nextChan = 0)
    (out : Nat → DbOutcome) (t : Nat → Nat → Nat)
    (hv : ValidSchedule (runActor C st0 cmds).2 out t) :
    (∀ i, i < (runActor C st0 cmds).2.length →
        ((runActor C st0 cmds).2.getD i default).chan = i
        ∧ ((runActor C st0 cmds).2.getD i default).prev
            = (if i = 0 then none else some (i - 1)))
    ∧ (∀ (job : Job) (o : DbOutcome) (c : Nat), job.prev = some c →
        (persistActions job o).getD 0 PAction.panicked = PAction.awaitPrev c
        ∧ (persistActions job o).getD (writeIdx job) PAction.panicked
            = PAction.dbWrite job.current_best_hash job.scale_encoded_header)
    ∧ (∀ i, i + 1 < (runActor C st0 cmds).2.length →
        t i (writeIdx ((runActor C st0 cmds).2.getD i default))
          < t (i + 1)
              (writeIdx ((runActor C st0 cmds).2.getD (i + 1) default))) := by
  have hchain := runActor_chain C cmds st0 (by rw [h0, h1]; rfl)
  refine ⟨?_, ?_, ?_⟩
  · intro i hi
    have := hchain i hi
    rw [h1] at this
    simpa using this
  · intro job o c hc
    cases o <;> simp [persistActions, writeIdx, hc]
  · intro i hik
    have hlen : i < (runActor C st0 cmds).2.length := by omega
    have hlen1 : i + 1 < (runActor C st0 cmds).2.length := hik
    have hci := hchain i hlen
    have hci1 := hchain (i + 1) hlen1
    rw [h1] at hci hci1
    simp only [Nat.zero_add] at hci hci1
    have hlink : ((runActor C st0 cmds).2.getD (i + 1) default).prev
        = some (((runActor C st0 cmds).2.getD i default).chan) := by
      rw [hci.1, hci1.2]
      simp
    have hstep := hv.2 i (by omega) hlink
    have hw1 : writeIdx ((runActor C st0 cmds).2.getD i default)
        < (actionsOf (runActor C st0 cmds).2 out i).length - 1 := by
      simpa [actionsOf] using
        writeIdx_lt_length_sub_one ((runActor C st0 cmds).2.getD i default)
          (out i)
    have hgap : t i (writeIdx ((runActor C st0 cmds).2.getD i default))
        < t i ((actionsOf (runActor C st0 cmds).2 out i).length - 1) :=
      hv.1 i hlen _ (by omega) _ (by omega) hw1
    have hw2 : writeIdx ((runActor C st0 cmds).2.getD (i + 1) default)
        < (actionsOf (runActor C st0 cmds).2 out (i + 1)).length - 1 := by
      simpa [actionsOf] using
        writeIdx_lt_length_sub_one
          ((runActor C st0 cmds).2.getD (i + 1) default) (out (i + 1))
    have h0le : t (i + 1) 0
        ≤ t (i + 1) (writeIdx ((runActor C st0 cmds).2.getD (i + 1) default)) := by
      rcases Nat.eq_zero_or_pos
          (writeIdx ((runActor C st0 cmds).2.getD (i + 1) default)) with
        hz | hpos
      · rw [hz]
      · exact Nat.le_of_lt (hv.1 (i + 1) hlen1 0 (by omega) _ (by omega) hpos)
    omega

/-- Two commands importing a linear chain of two blocks on top of the
example state. -/
def cmdsEx : List ToBlockImport :=
  [ToBlockImport.importBlock [1, 0] [], ToBlockImport.importBlock [2, 1, 0] []]

/-- C1 witness: a concrete two-import run under a concrete valid schedule;
the first step's write is scheduled before the second step's write. -/
theorem c1_persistence_write_order_witness :
    (fun (i a : Nat) => 10 * i + a) 0
        (writeIdx ((runActor CexOk stEx cmdsEx).2.getD 0 default))
      < (fun (i a : Nat) => 10 * i + a) 1
        (writeIdx ((runActor CexOk stEx cmdsEx).2.getD 1 default)) :=
  (c1_persistence_steps_write_in_acceptance_order CexOk stEx cmdsEx rfl rfl
      (fun _ => DbOutcome.ok) (fun i a => 10 * i + a) (by decide)).2.2 0
    (by decide)

/-- C7 witness: on the successful outcome the concrete step does send its
completion signal, and any signal it sends is on its own channel. -/
theorem c7_signal_sent_iff_write_succeeded_witness :
    PAction.signalDone jobEx.chan ∈ persistActions jobEx DbOutcome.ok
    ∧ 1 = jobEx.chan := by
  have h := c7_signal_sent_iff_write_succeeded jobEx DbOutcome.ok
  exact ⟨h.1.mpr rfl, h.2 1 (by decide)⟩
